import Mathlib

set_option autoImplicit false

/-
  Shallow embedding of the core file-organizing engine of FilesInOrden
  (src/FilesInOrden.py): path handling, `validate_file`,
  `process_single_file` (checksum / conflict resolution / copy-verify-rename
  -delete move), `process_results`, the bounded `undo_stack`
  (`collections.deque(maxlen=5)`), `undo_last`, and the rule-table add path
  (`add_format` / `get_current_formats`).

  Files are modelled as byte lists plus the metadata bits the code inspects
  (read permission, write permission, in-use probe).  The SHA-256 digest is
  modelled as an uninterpreted function `hash : List Nat → Nat` passed to the
  operations; `shutil.copy2` is modelled by an oracle `copy2` giving the bytes
  that actually land in the temporary file, so that the post-copy checksum
  mismatch branch is reachable.
-/

namespace FilesInOrden

/-! ### String helpers mirroring `os.path` / `str` operations -/

/-- `os.path.join` for one component (POSIX). -/
def pjoin (dir name : String) : String := dir ++ "/" ++ name

/-- `os.path.splitext` on a bare file name (no separator), on char lists:
the extension starts at the last dot, unless every character before that dot
is itself a dot. -/
def splitextList (cs : List Char) : List Char × List Char :=
  let rev := cs.reverse
  let extRev := rev.takeWhile (fun c => c ≠ '.')
  let rest := rev.dropWhile (fun c => c ≠ '.')
  match rest with
  | [] => (cs, [])
  | _ :: baseRev =>
    if (baseRev.reverse).any (fun c => c ≠ '.') then
      (baseRev.reverse, '.' :: extRev.reverse)
    else
      (cs, [])

/-- `os.path.splitext` on strings. -/
def splitext (s : String) : String × String :=
  ((splitextList s.toList).1.asString, (splitextList s.toList).2.asString)

/-- `str.lower` (ASCII, as the code applies it to extensions). -/
def lowerStr (s : String) : String := (s.toList.map Char.toLower).asString

/-- `str.strip` with default whitespace set. -/
def pstrip (s : String) : String :=
  (((s.toList.dropWhile Char.isWhitespace).reverse.dropWhile Char.isWhitespace).reverse).asString

/-- `str.startswith` for a single pattern. -/
def strStarts (s pat : String) : Bool :=
  s.toList.take pat.toList.length == pat.toList

/-! ### Association lists (paths to file states, extensions to folders) -/

def assocGet {α : Type} : List (String × α) → String → Option α
  | [], _ => none
  | (k2, v) :: rest, k => if k2 = k then some v else assocGet rest k

def assocRemove {α : Type} : List (String × α) → String → List (String × α)
  | [], _ => []
  | (k2, v) :: rest, k =>
    if k2 = k then assocRemove rest k else (k2, v) :: assocRemove rest k

/-! ### Filesystem model -/

/-- The per-file state the Python code inspects: content bytes, read
permission (`os.access(..., R_OK)`), write permission
(`os.access(..., W_OK)`), and the result of the in-use probe (`lsof`). -/
structure FileSt where
  content : List Nat
  readable : Bool
  writable : Bool
  inUse : Bool
deriving DecidableEq

/-- A filesystem snapshot: regular files (path to state) and directories. -/
structure FS where
  files : List (String × FileSt)
  dirs : List String
deriving DecidableEq

def FS.getFile (fs : FS) (p : String) : Option FileSt := assocGet fs.files p

def FS.setFile (fs : FS) (p : String) (st : FileSt) : FS :=
  { fs with files := (p, st) :: assocRemove fs.files p }

def FS.removeFile (fs : FS) (p : String) : FS :=
  { fs with files := assocRemove fs.files p }

/-- `os.path.exists`: true for files and directories. -/
def FS.existsPath (fs : FS) (p : String) : Bool :=
  (fs.getFile p).isSome || fs.dirs.contains p

/-! ### `validate_file` (FilesInOrden.py lines 2064-2144) and
`_validate_file_signature` (lines 2146-2173) -/

/-- The exceptions the body of `validate_file` can raise:
`PermissionError` (line 2093) and `IntegrityError` (line 2136). -/
inductive VErr
  | permission
  | integrity
deriving DecidableEq

/-- The tuple passed to `str.startswith` at line 2113. -/
def sysArtifacts : List String := ["~$", "Thumbs.db", ".DS_Store", "desktop.ini"]

def isSystemFile (filename : String) : Bool :=
  sysArtifacts.any (fun p => strStarts filename p)

/-- The `SIGNATURES` table of `_validate_file_signature` (magic bytes). -/
def SIGNATURES : List (String × List (List Nat)) :=
  [ (".jpg", [[0xff, 0xd8, 0xff]]),
    (".png", [[0x89, 0x50, 0x4e, 0x47, 0x0d, 0x0a, 0x1a, 0x0a]]),
    (".pdf", [[0x25, 0x50, 0x44, 0x46]]),
    (".docx", [[0x50, 0x4b, 0x03, 0x04]]) ]

/-- `_validate_file_signature`: read the first 8 bytes and compare against
the known signatures; unknown extensions pass. -/
def validate_file_signature (content : List Nat) (ext : String) : Bool :=
  match assocGet SIGNATURES ext with
  | none => true
  | some sigs =>
    let header := content.take 8
    sigs.any (fun sig => header.take sig.length == sig)

/-- The `try` body of `validate_file` (lines 2084-2138): checks in source
order, raising (`Except.error`) where the code raises.  `entry = none`
models `os.path.isfile` being false. -/
def validateBody (filename : String) (entry : Option FileSt) : Except VErr Bool :=
  match entry with
  | none => .ok false
  | some st =>
    if !st.readable then .error .permission
    else if st.inUse then .ok false
    else if isSystemFile filename then .ok false
    else if st.content.length = 0 then .ok false
    else if 100 * 1024 * 1024 < st.content.length then .ok false
    else
      let ext := lowerStr (splitext filename).2
      if ext ∈ [".jpg", ".png", ".pdf", ".docx"] then
        if validate_file_signature st.content ext then .ok true
        else .error .integrity
      else .ok true

/-- `validate_file` as actually observable by its caller: the handlers at
lines 2140-2144 (`except (IOError, PermissionError, FileNotFoundError)` and
`except Exception`) both turn ANY raised exception into `return False`. -/
def validate_file (filename : String) (entry : Option FileSt) : Bool :=
  match validateBody filename entry with
  | .ok b => b
  | .error _ => false

/-! ### Conflict resolution and the move step of `process_single_file`
(lines 2236-2380) -/

inductive ConflictPolicy
  | rename
  | skip
  | overwrite
deriving DecidableEq

/-- The candidate name built at line 2319: `f"{base_name}_{counter}{ext}"`
joined under the destination directory. -/
def renameCandidate (destDir base ext : String) (n : Nat) : String :=
  pjoin destDir (base ++ "_" ++ toString n ++ ext)

/-- The `while os.path.exists(dest_path)` loop at lines 2317-2321, with
explicit fuel (the Python loop terminates because the directory is finite). -/
def renameLoop (fs : FS) (destDir base ext : String) :
    String → Nat → Nat → Option String
  | _, _, 0 => none
  | destPath, counter, fuel + 1 =>
    if fs.existsPath destPath then
      renameLoop fs destDir base ext
        (renameCandidate destDir base ext counter) (counter + 1) fuel
    else some destPath

/-- Step 6 of `process_single_file` (lines 2297-2324): resolve the final
destination under the conflict policy; `none` means the file is skipped
(the Python code returns `None`). -/
def resolveConflict (fs : FS) (destDir filename : String)
    (policy : ConflictPolicy) (fuel : Nat) : Option String :=
  let destPath := pjoin destDir filename
  if fs.existsPath destPath then
    match policy with
    | .skip => none
    | .overwrite =>
      match fs.getFile destPath with
      | some st => if st.writable then some destPath else none
      | none => none
    | .rename =>
      renameLoop fs destDir (splitext filename).1 (splitext filename).2
        destPath 1 fuel
  else some destPath

/-- Step 7 of `process_single_file` (lines 2326-2359) together with the
outer `except IntegrityError` handler (returns `None`): copy the source to
`dest_path + ".tmp"`, recompute the checksum, on mismatch delete the
temporary file and fail, otherwise rename the temporary file onto the final
destination and only then delete the original. -/
def moveStep (hash : List Nat → Nat) (fs : FS) (srcPath destPath : String)
    (st : FileSt) (copied : List Nat) : Option (String × String) × FS :=
  let tempPath := destPath ++ ".tmp"
  let fs1 := fs.setFile tempPath { st with content := copied }
  if hash copied ≠ hash st.content then
    (none, fs1.removeFile tempPath)
  else
    (some (srcPath, destPath),
      (((fs1.removeFile tempPath).setFile destPath
          { st with content := copied }).removeFile srcPath))

/-- `process_single_file` (lines 2236-2380).  `formats` is the current
profile's `formatos` mapping; `copy2` gives the bytes `shutil.copy2`
actually wrote (fault-injection oracle); the result is the returned
`Optional[Tuple[str, str]]` paired with the filesystem after the call. -/
def processSingleFile (hash : List Nat → Nat) (formats : List (String × String))
    (policy : ConflictPolicy) (copy2 : List Nat → List Nat) (fuel : Nat)
    (fs : FS) (directory filename : String) :
    Option (String × String) × FS :=
  let srcPath := pjoin directory filename
  if fs.dirs.contains srcPath then (none, fs)
  else
    match fs.getFile srcPath with
    | none => (none, fs)
    | some st =>
      if validate_file filename (some st) then
        let folderExt := lowerStr (splitext filename).2
        let folder := (assocGet formats folderExt).getD "Otros"
        let destDir := pjoin directory folder
        let fs1 := if fs.existsPath destDir then fs
                   else { fs with dirs := destDir :: fs.dirs }
        match resolveConflict fs1 destDir filename policy fuel with
        | none => (none, fs1)
        | some destPath => moveStep hash fs1 srcPath destPath st (copy2 st.content)
      else (none, fs)

/-! ### Batches, the undo stack (a `deque(maxlen=5)`, line 316), and
`undo_last` (lines 1538-1548) -/

/-- One batch: the `(src, dest)` pairs of the successful moves of a run. -/
abbrev Batch := List (String × String)

/-- `deque.append` on a deque created with `maxlen=5`: past capacity the
oldest (leftmost) element is silently discarded. -/
def undoStackAppend (stack : List Batch) (b : Batch) : List Batch :=
  let s := stack ++ [b]
  if 5 < s.length then s.drop (s.length - 5) else s

/-- `process_results` (lines 2029-2062): collect the truthy results into
`moved_files` and push them onto the undo stack only when non-empty.
Returns the new stack and the collected `moved_files`. -/
def process_results (results : List (Option (String × String)))
    (stack : List Batch) : List Batch × Batch :=
  let moved := results.filterMap (fun r => r)
  (if moved.isEmpty then stack else undoStackAppend stack moved, moved)

/-- `deque.pop`: remove and return the rightmost (most recent) element. -/
def popLast {α : Type} (l : List α) : Option (α × List α) :=
  match l.reverse with
  | [] => none
  | x :: r => some (x, r.reverse)

/-- One reversal attempt inside `undo_last`: `shutil.move(dest, src)`,
which succeeds exactly when the destination file exists; any exception is
logged and the loop continues. -/
def undoMove (fs : FS) (mv : String × String) : FS × Bool :=
  match fs.getFile mv.2 with
  | some st => ((fs.removeFile mv.2).setFile mv.1 st, true)
  | none => (fs, false)

/-- The `for src, dest in reversed(last_move)` loop body applied to an
explicit move list, recording one `(move, succeeded)` entry per attempt. -/
def undoBatch (fs : FS) : List (String × String) → FS × List ((String × String) × Bool)
  | [] => (fs, [])
  | mv :: rest =>
    let p := undoMove fs mv
    let q := undoBatch p.1 rest
    (q.1, (mv, p.2) :: q.2)

/-- `undo_last`: if the stack is non-empty, pop the most recent batch and
attempt every recorded move in reverse order; an empty stack does nothing. -/
def undo_last (fs : FS) (stack : List Batch) :
    FS × List Batch × List ((String × String) × Bool) :=
  match popLast stack with
  | none => (fs, stack, [])
  | some (last, rest) =>
    let r := undoBatch fs last.reverse
    (r.1, rest, r.2)

/-! ### The rule table add path: `add_format`'s inner `save_new_format`
(lines 1477-1496, the handler wired to the GUI buttons) and
`get_current_formats` (lines 2447-2452) -/

/-- `save_new_format`: strip both entries and insert the row at the end of
the format tree when both are non-empty; duplicates are never checked. -/
def save_new_format (tree : List (String × String)) (extRaw folderRaw : String) :
    List (String × String) :=
  let ext := pstrip extRaw
  let folder := pstrip folderRaw
  if ext ≠ "" ∧ folder ≠ "" then tree ++ [(ext, folder)] else tree

/-- Python `dict` assignment `d[k] = v`: replace in place if the key is
present, else append. -/
def dictSet (d : List (String × String)) (k v : String) : List (String × String) :=
  match d with
  | [] => [(k, v)]
  | (k2, v2) :: rest => if k2 = k then (k2, v) :: rest else (k2, v2) :: dictSet rest k v

/-- `get_current_formats`: fold the tree rows into a `dict`
(`formatos[ext] = folder` row by row), so a later row for the same
extension overwrites the earlier one. -/
def get_current_formats (tree : List (String × String)) : List (String × String) :=
  tree.foldl (fun d kv => dictSet d kv.1 kv.2) []

/-! ### Helper lemmas about the association-list filesystem -/

theorem assocGet_remove_self {α : Type} (l : List (String × α)) (k : String) :
    assocGet (assocRemove l k) k = none := by
  induction l with
  | nil => rfl
  | cons hd tl ih =>
    obtain ⟨k2, v⟩ := hd
    by_cases h : k2 = k
    · simp [assocRemove, h, ih]
    · simp [assocRemove, assocGet, h, ih]

theorem assocGet_remove_ne {α : Type} (l : List (String × α)) {k q : String}
    (h : q ≠ k) : assocGet (assocRemove l k) q = assocGet l q := by
  induction l with
  | nil => rfl
  | cons hd tl ih =>
    obtain ⟨k2, v⟩ := hd
    have hkq : ¬ k = q := fun hh => h hh.symm
    by_cases h2 : k2 = k
    · simp [assocRemove, h2, assocGet, hkq, ih]
    · by_cases h3 : k2 = q
      · simp [assocRemove, h2, assocGet, h3, h]
      · simp [assocRemove, h2, assocGet, h3, ih]

theorem getFile_setFile_self (fs : FS) (p : String) (st : FileSt) :
    (fs.setFile p st).getFile p = some st := by
  simp [FS.setFile, FS.getFile, assocGet]

theorem getFile_setFile_ne (fs : FS) (p q : String) (st : FileSt) (h : q ≠ p) :
    (fs.setFile p st).getFile q = fs.getFile q := by
  have hp : ¬ p = q := fun hh => h hh.symm
  simp [FS.setFile, FS.getFile, assocGet, hp, assocGet_remove_ne _ h]

theorem getFile_removeFile_self (fs : FS) (p : String) :
    (fs.removeFile p).getFile p = none := by
  simp [FS.removeFile, FS.getFile, assocGet_remove_self]

theorem getFile_removeFile_ne (fs : FS) (p q : String) (h : q ≠ p) :
    (fs.removeFile p).getFile q = fs.getFile q := by
  simp [FS.removeFile, FS.getFile, assocGet_remove_ne _ h]

/-! ### Helper lemmas about the undo stack -/

theorem popLast_append {α : Type} (rest : List α) (x : α) :
    popLast (rest ++ [x]) = some (x, rest) := by
  simp [popLast, List.reverse_append]

theorem undoBatch_map_fst (ms : List (String × String)) :
    ∀ fs : FS, ((undoBatch fs ms).2).map Prod.fst = ms := by
  induction ms with
  | nil => intro fs; rfl
  | cons mv tl ih => intro fs; simp [undoBatch, ih]

theorem undoBatch_all_fail (ms : List (String × String)) :
    ∀ fs : FS, (∀ mv ∈ ms, fs.getFile mv.2 = none) →
      undoBatch fs ms = (fs, ms.map (fun mv => (mv, false))) := by
  induction ms with
  | nil => intro fs _; rfl
  | cons mv tl ih =>
    intro fs h
    have h1 : fs.getFile mv.2 = none := h mv (by simp)
    have h2 : ∀ m ∈ tl, fs.getFile m.2 = none := fun m hm => h m (by simp [hm])
    simp [undoBatch, undoMove, h1, ih fs h2]

theorem mem_undoStackAppend {stack : List Batch} {a b : Batch}
    (h : b ∈ undoStackAppend stack a) : b ∈ stack ∨ b = a := by
  simp only [undoStackAppend] at h
  by_cases h5 : 5 < (stack ++ [a]).length
  · rw [if_pos h5] at h
    have h2 : b ∈ stack ++ [a] := List.drop_subset _ _ h
    rcases List.mem_append.mp h2 with h3 | h3
    · exact Or.inl h3
    · right; simpa using h3
  · rw [if_neg h5] at h
    rcases List.mem_append.mp h with h3 | h3
    · exact Or.inl h3
    · right; simpa using h3

theorem filterMap_id_all_none (results : List (Option (String × String)))
    (h : ∀ r ∈ results, r = none) : results.filterMap (fun r => r) = [] := by
  induction results with
  | nil => rfl
  | cons r tl ih =>
    have hr := h r (by simp)
    subst hr
    simp [List.filterMap_cons, ih (fun x hx => h x (by simp [hx]))]

theorem mem_filterMap_id {results : List (Option (String × String))}
    {mv : String × String} (h : mv ∈ results.filterMap (fun r => r)) :
    some mv ∈ results := by
  rcases List.mem_filterMap.mp h with ⟨a, ha, hfa⟩
  have h2 : a = some mv := hfa
  exact h2 ▸ ha

/-! ### Helper lemmas about `validate_file` and the rename loop -/

theorem validate_file_size (filename : String) (st : FileSt)
    (h : st.content.length = 0 ∨ 100 * 1024 * 1024 < st.content.length) :
    validate_file filename (some st) = false := by
  cases hr : st.readable with
  | false => simp [validate_file, validateBody, hr]
  | true =>
    cases hu : st.inUse with
    | true => simp [validate_file, validateBody, hr, hu]
    | false =>
      cases hs : isSystemFile filename with
      | true => simp [validate_file, validateBody, hr, hu, hs]
      | false =>
        rcases h with h | h
        · simp [validate_file, validateBody, hr, hu, hs, h]
        · have h0 : ¬ st.content.length = 0 := by omega
          simp [validate_file, validateBody, hr, hu, hs, h0, h]

theorem renameLoop_sound (fs : FS) (destDir base ext : String) :
    ∀ (fuel : Nat) (destPath : String) (counter : Nat) (d : String),
      renameLoop fs destDir base ext destPath counter fuel = some d →
      fs.existsPath d = false ∧
        (d = destPath ∨
          (fs.existsPath destPath = true ∧
            ∃ n, counter ≤ n ∧ d = renameCandidate destDir base ext n ∧
              ∀ m, counter ≤ m → m < n →
                fs.existsPath (renameCandidate destDir base ext m) = true)) := by
  intro fuel
  induction fuel with
  | zero => intro destPath counter d h; simp [renameLoop] at h
  | succ fuel ih =>
    intro destPath counter d h
    simp only [renameLoop] at h
    by_cases he : fs.existsPath destPath = true
    · rw [if_pos he] at h
      obtain ⟨hfree, hcase⟩ := ih _ _ _ h
      refine ⟨hfree, Or.inr ⟨he, ?_⟩⟩
      rcases hcase with hd | ⟨hocc, n, hn, hdn, hall⟩
      · exact ⟨counter, le_refl _, hd, fun m hm1 hm2 => absurd hm2 (by omega)⟩
      · refine ⟨n, by omega, hdn, fun m hm1 hm2 => ?_⟩
        by_cases hm : m = counter
        · rw [hm]; exact hocc
        · exact hall m (by omega) hm2
    · rw [if_neg he] at h
      have hd : destPath = d := by injection h
      subst hd
      refine ⟨?_, Or.inl rfl⟩
      simpa using he

/-! ### Helper lemmas about the format dictionary -/

theorem assocGet_dictSet_self (d : List (String × String)) (k v : String) :
    assocGet (dictSet d k v) k = some v := by
  induction d with
  | nil => simp [dictSet, assocGet]
  | cons hd tl ih =>
    obtain ⟨k2, v2⟩ := hd
    by_cases h : k2 = k
    · simp [dictSet, h, assocGet]
    · simp [dictSet, h, assocGet, ih]

theorem get_current_formats_append (t : List (String × String)) (k v : String) :
    get_current_formats (t ++ [(k, v)]) = dictSet (get_current_formats t) k v := by
  simp [get_current_formats, List.foldl_append]

/-! ### Claim theorems -/

/-- C1: In the single-file move step, the original source file is deleted
only after the temporary copy has been checksum-verified and renamed onto
the final destination: on a checksum mismatch the temporary file is removed,
the result is `none` (failure for that file) and the source file is left
exactly as it was; conversely the source disappears exactly when the
checksum matched, in which case the operation reports success and the
destination holds the copied content. -/
theorem c1_source_deleted_only_after_verified_rename
    (hash : List Nat → Nat) (fs : FS) (srcPath destPath : String)
    (st : FileSt) (copied : List Nat)
    (hst : srcPath ≠ destPath ++ ".tmp") (hsd : srcPath ≠ destPath) :
    (hash copied ≠ hash st.content →
        (moveStep hash fs srcPath destPath st copied).1 = none ∧
        ((moveStep hash fs srcPath destPath st copied).2).getFile srcPath =
          fs.getFile srcPath ∧
        ((moveStep hash fs srcPath destPath st copied).2).getFile
          (destPath ++ ".tmp") = none) ∧
    (fs.getFile srcPath = some st →
        (((moveStep hash fs srcPath destPath st copied).2).getFile srcPath = none ↔
          hash copied = hash st.content) ∧
        (hash copied = hash st.content →
          (moveStep hash fs srcPath destPath st copied).1 = some (srcPath, destPath) ∧
          ((moveStep hash fs srcPath destPath st copied).2).getFile destPath =
            some { st with content := copied })) := by
  constructor
  · intro hne
    have hresult : moveStep hash fs srcPath destPath st copied =
        (none, (fs.setFile (destPath ++ ".tmp")
          { st with content := copied }).removeFile (destPath ++ ".tmp")) := by
      simp only [moveStep, if_pos hne]
    rw [hresult]
    refine ⟨rfl, ?_, ?_⟩
    · rw [getFile_removeFile_ne _ _ _ hst, getFile_setFile_ne _ _ _ _ hst]
    · exact getFile_removeFile_self _ _
  · intro hsome
    by_cases hc : hash copied = hash st.content
    · have hresult : moveStep hash fs srcPath destPath st copied =
          (some (srcPath, destPath),
            (((fs.setFile (destPath ++ ".tmp") { st with content := copied }).removeFile
                (destPath ++ ".tmp")).setFile destPath
                  { st with content := copied }).removeFile srcPath) := by
        simp only [moveStep, if_neg (not_not_intro hc)]
      rw [hresult]
      constructor
      · constructor
        · intro _; exact hc
        · intro _; exact getFile_removeFile_self _ _
      · intro _
        refine ⟨rfl, ?_⟩
        rw [getFile_removeFile_ne _ _ _ (Ne.symm hsd)]
        exact getFile_setFile_self _ _ _
    · have hresult : moveStep hash fs srcPath destPath st copied =
          (none, (fs.setFile (destPath ++ ".tmp")
            { st with content := copied }).removeFile (destPath ++ ".tmp")) := by
        simp only [moveStep, if_pos hc]
      rw [hresult]
      constructor
      · constructor
        · intro hnone
          exfalso
          rw [getFile_removeFile_ne _ _ _ hst, getFile_setFile_ne _ _ _ _ hst,
            hsome] at hnone
          exact Option.noConfusion hnone
        · intro he; exact absurd he hc
      · intro he; exact absurd he hc

theorem c1_witness :
    (moveStep (fun l => l.length) ⟨[("a/x", ⟨[0], true, true, false⟩)], []⟩ "a/x" "b/x"
        ⟨[0], true, true, false⟩ []).1 = none ∧
    ((moveStep (fun l => l.length) ⟨[("a/x", ⟨[0], true, true, false⟩)], []⟩ "a/x" "b/x"
        ⟨[0], true, true, false⟩ []).2).getFile "a/x" =
      FS.getFile ⟨[("a/x", ⟨[0], true, true, false⟩)], []⟩ "a/x" ∧
    ((moveStep (fun l => l.length) ⟨[("a/x", ⟨[0], true, true, false⟩)], []⟩ "a/x" "b/x"
        ⟨[0], true, true, false⟩ []).2).getFile ("b/x" ++ ".tmp") = none :=
  (c1_source_deleted_only_after_verified_rename (fun l => l.length)
      ⟨[("a/x", ⟨[0], true, true, false⟩)], []⟩ "a/x" "b/x" ⟨[0], true, true, false⟩ []
      (by decide) (by decide)).1 (by decide)

/-- C2: the claim says a signature mismatch on a `.jpg`/`.png`/`.pdf`/`.docx`
file raises an integrity error that reaches the caller.  In the code the
`raise IntegrityError` at line 2136 sits inside the same `try` whose
`except Exception` handler at lines 2142-2144 returns `False`, so the caller
of `validate_file` only ever sees `False` and `process_single_file` silently
skips the file: evaluated here at a `.jpg` file whose first bytes are not
`FF D8 FF`. -/
theorem c2_integrity_error_swallowed :
    validateBody "photo.jpg" (some ⟨[0, 0, 0, 0], true, true, false⟩) =
      Except.error VErr.integrity ∧
    validate_file "photo.jpg" (some ⟨[0, 0, 0, 0], true, true, false⟩) = false ∧
    processSingleFile (fun l => l.length) [(".jpg", "Fotos")] .rename (fun l => l) 9
        ⟨[("home/photo.jpg", ⟨[0, 0, 0, 0], true, true, false⟩)], []⟩ "home" "photo.jpg" =
      (none, ⟨[("home/photo.jpg", ⟨[0, 0, 0, 0], true, true, false⟩)], []⟩) :=
  ⟨rfl, rfl, rfl⟩

/-- C3: the claim says an existing but unreadable candidate makes the
eligibility check raise a distinct permission failure to its caller.  In the
code the `raise PermissionError` at line 2093 sits inside the same `try`
whose `except (IOError, PermissionError, FileNotFoundError)` handler at
lines 2140-2141 returns `False`, so the caller only ever sees `False` and
the file is silently skipped: evaluated here at a readable-bit-off file. -/
theorem c3_permission_error_swallowed :
    validateBody "doc.txt" (some ⟨[1, 2, 3], false, true, false⟩) =
      Except.error VErr.permission ∧
    validate_file "doc.txt" (some ⟨[1, 2, 3], false, true, false⟩) = false ∧
    processSingleFile (fun l => l.length) [] .rename (fun l => l) 9
        ⟨[("home/doc.txt", ⟨[1, 2, 3], false, true, false⟩)], []⟩ "home" "doc.txt" =
      (none, ⟨[("home/doc.txt", ⟨[1, 2, 3], false, true, false⟩)], []⟩) :=
  ⟨rfl, rfl, rfl⟩

/-- C4: the undo ledger (`deque(maxlen=5)`) holds at most 5 batches; a
sixth push silently evicts the first-pushed batch; and the undo operation
always pops the most recently pushed remaining batch. -/
theorem c4_undo_ledger_bounded_lifo :
    (∀ (stack : List Batch) (b : Batch),
        stack.length ≤ 5 → (undoStackAppend stack b).length ≤ 5) ∧
    (∀ b1 b2 b3 b4 b5 b6 : Batch,
        List.foldl undoStackAppend [] [b1, b2, b3, b4, b5, b6] =
          [b2, b3, b4, b5, b6]) ∧
    (∀ (rest : List Batch) (b : Batch), popLast (rest ++ [b]) = some (b, rest)) ∧
    (∀ (fs : FS) (rest : List Batch) (b : Batch),
        (undo_last fs (rest ++ [b])).2.1 = rest) := by
  refine ⟨?_, ?_, ?_, ?_⟩
  · intro stack b h
    simp only [undoStackAppend]
    split
    · rw [List.length_drop]; omega
    · omega
  · intro b1 b2 b3 b4 b5 b6; rfl
  · intro rest b; exact popLast_append rest b
  · intro fs rest b; simp [undo_last, popLast_append]

theorem c4_witness :
    (undoStackAppend [[("s", "d")]] []).length ≤ 5 :=
  c4_undo_ledger_bounded_lifo.1 [[("s", "d")]] [] (by decide)

/-- C5: undo processes the popped batch's recorded moves in reverse order
of their recorded completion (one attempt per recorded move), an individual
reversal failure does not stop the remaining reversals (shown concretely:
the first attempted reversal fails because its destination is missing and
the second still succeeds), and undo on an empty ledger is a no-op. -/
theorem c5_undo_reverse_order_isolated :
    (∀ fs : FS, undo_last fs [] = (fs, [], [])) ∧
    (∀ (fs : FS) (rest : List Batch) (batch : Batch),
        ((undo_last fs (rest ++ [batch])).2.2).map Prod.fst = batch.reverse) ∧
    undo_last ⟨[("d1", ⟨[1], true, true, false⟩)], []⟩ [[("s1", "d1"), ("s2", "d2")]] =
      (⟨[("s1", ⟨[1], true, true, false⟩)], []⟩, [],
        [(("s2", "d2"), false), (("s1", "d1"), true)]) := by
  refine ⟨?_, ?_, ?_⟩
  · intro fs; rfl
  · intro fs rest batch
    simp [undo_last, popLast_append, undoBatch_map_fst]
  · rfl

/-- C6: under the `rename` policy the final name is built by appending
`_N` before the extension with `N` starting at 1 and incrementing until a
free name is found: any name the loop returns is free and is either the
original destination or a candidate `base_N ext` with every earlier
candidate occupied; concretely a second `report.pdf` resolves to
`report_1.pdf` and a third to `report_2.pdf`. -/
theorem c6_rename_conflict_numbering :
    (∀ (fs : FS) (destDir base ext destPath : String) (counter fuel : Nat)
        (d : String),
        renameLoop fs destDir base ext destPath counter fuel = some d →
        fs.existsPath d = false ∧
          (d = destPath ∨
            (fs.existsPath destPath = true ∧
              ∃ n, counter ≤ n ∧ d = renameCandidate destDir base ext n ∧
                ∀ m, counter ≤ m → m < n →
                  fs.existsPath (renameCandidate destDir base ext m) = true))) ∧
    resolveConflict ⟨[("dest/report.pdf", ⟨[1], true, true, false⟩)], []⟩
        "dest" "report.pdf" .rename 10 = some "dest/report_1.pdf" ∧
    resolveConflict ⟨[("dest/report.pdf", ⟨[1], true, true, false⟩),
        ("dest/report_1.pdf", ⟨[1], true, true, false⟩)], []⟩
        "dest" "report.pdf" .rename 10 = some "dest/report_2.pdf" := by
  refine ⟨?_, rfl, rfl⟩
  intro fs destDir base ext destPath counter fuel d h
  exact renameLoop_sound fs destDir base ext fuel destPath counter d h

theorem c6_witness :
    FS.existsPath ⟨[], []⟩ "dest/report.pdf" = false :=
  ((c6_rename_conflict_numbering.1 ⟨[], []⟩ "dest" "report" ".pdf"
      "dest/report.pdf" 1 5 "dest/report.pdf") (by decide)).1

/-- C7: a file of size 0, or larger than the 100 MiB ceiling, always fails
validation, so `process_single_file` returns `None` without touching the
filesystem (it never reaches the hash/move steps), and since batches
collect only `some` results such a file can never appear in a batch. -/
theorem c7_zero_and_oversize_never_moved
    (hash : List Nat → Nat) (formats : List (String × String))
    (policy : ConflictPolicy) (copy2 : List Nat → List Nat) (fuel : Nat)
    (fs : FS) (directory filename : String) (st : FileSt)
    (hsrc : fs.getFile (pjoin directory filename) = some st)
    (hsize : st.content.length = 0 ∨ 100 * 1024 * 1024 < st.content.length) :
    validate_file filename (some st) = false ∧
    processSingleFile hash formats policy copy2 fuel fs directory filename =
      (none, fs) ∧
    (∀ (results : List (Option (String × String))) (stack : List Batch)
        (mv : String × String),
        mv ∈ (process_results results stack).2 → some mv ∈ results) := by
  have hval := validate_file_size filename st hsize
  refine ⟨hval, ?_, ?_⟩
  · simp only [processSingleFile]
    by_cases hd : fs.dirs.contains (pjoin directory filename)
    · rw [if_pos hd]
    · rw [if_neg hd, hsrc]
      simp [hval]
  · intro results stack mv hm
    have h2 : mv ∈ results.filterMap (fun r => r) := by
      simpa [process_results] using hm
    exact mem_filterMap_id h2

theorem c7_witness :
    validate_file "x.txt" (some ⟨[], true, true, false⟩) = false :=
  (c7_zero_and_oversize_never_moved (fun _ => 0) [] .rename (fun l => l) 1
      ⟨[("dir/x.txt", ⟨[], true, true, false⟩)], []⟩ "dir" "x.txt"
      ⟨[], true, true, false⟩ (by decide) (Or.inl rfl)).1

/-- C8: adding a rule for an extension already present never rejects: the
wired add handler (`add_format`'s `save_new_format`) appends the duplicate
row unconditionally, and `get_current_formats` folds the rows into a dict
so the later row wins — after add(e, f1) and add(e, f2), resolving e yields
f2. -/
theorem c8_duplicate_extension_overwrites
    (tree : List (String × String)) (e f1 f2 : String)
    (he : pstrip e ≠ "") (hf1 : pstrip f1 ≠ "") (hf2 : pstrip f2 ≠ "") :
    save_new_format (save_new_format tree e f1) e f2 =
      tree ++ [(pstrip e, pstrip f1), (pstrip e, pstrip f2)] ∧
    assocGet (get_current_formats (save_new_format (save_new_format tree e f1) e f2))
      (pstrip e) = some (pstrip f2) := by
  have h1 : save_new_format tree e f1 = tree ++ [(pstrip e, pstrip f1)] := by
    simp [save_new_format, he, hf1]
  have h2 : save_new_format (save_new_format tree e f1) e f2 =
      tree ++ [(pstrip e, pstrip f1), (pstrip e, pstrip f2)] := by
    rw [h1]
    simp [save_new_format, he, hf2]
  refine ⟨h2, ?_⟩
  rw [h2]
  have h3 : tree ++ [(pstrip e, pstrip f1), (pstrip e, pstrip f2)] =
      (tree ++ [(pstrip e, pstrip f1)]) ++ [(pstrip e, pstrip f2)] := by simp
  rw [h3, get_current_formats_append]
  exact assocGet_dictSet_self _ _ _

theorem c8_witness :
    save_new_format (save_new_format [] ".jpg" "Fotos") ".jpg" "Imagenes" =
      [] ++ [(pstrip ".jpg", pstrip "Fotos"), (pstrip ".jpg", pstrip "Imagenes")] ∧
    assocGet (get_current_formats
        (save_new_format (save_new_format [] ".jpg" "Fotos") ".jpg" "Imagenes"))
      (pstrip ".jpg") = some (pstrip "Imagenes") :=
  c8_duplicate_extension_overwrites [] ".jpg" "Fotos" "Imagenes"
    (by decide) (by decide) (by decide)

/-- C9: undo removes the most recent batch from the ledger before any
reversal and never re-pushes it: the resulting ledger is the stack without
its last batch, and even when every individual reversal fails (every
destination missing) the popped batch is gone and the filesystem is
unchanged, so the failed undo cannot be retried. -/
theorem c9_undo_pops_batch_before_reversal
    (fs : FS) (rest : List Batch) (batch : Batch) :
    (undo_last fs (rest ++ [batch])).2.1 = rest ∧
    ((∀ mv ∈ batch, fs.getFile mv.2 = none) →
      undo_last fs (rest ++ [batch]) =
        (fs, rest, batch.reverse.map (fun mv => (mv, false)))) := by
  constructor
  · simp [undo_last, popLast_append]
  · intro h
    have h2 : ∀ mv ∈ batch.reverse, fs.getFile mv.2 = none := by
      intro mv hm
      exact h mv (List.mem_reverse.mp hm)
    simp [undo_last, popLast_append, undoBatch_all_fail batch.reverse fs h2]

theorem c9_witness :
    (undo_last ⟨[], []⟩ [[("s", "d")]]).2.1 = [] ∧
    undo_last ⟨[], []⟩ [[("s", "d")]] = (⟨[], []⟩, [], [(("s", "d"), false)]) := by
  have h := c9_undo_pops_batch_before_reversal ⟨[], []⟩ [] [("s", "d")]
  exact ⟨h.1, h.2 (by decide)⟩

/-- C10: a batch is pushed onto the undo ledger only when it contains at
least one successful move: a run with no successful results leaves the
ledger unchanged, and if every stored batch is non-empty this remains true
after `process_results`. -/
theorem c10_push_only_nonempty
    (results : List (Option (String × String))) (stack : List Batch) :
    ((∀ r ∈ results, r = none) → (process_results results stack).1 = stack) ∧
    ((∀ b ∈ stack, b ≠ []) → ∀ b ∈ (process_results results stack).1, b ≠ []) := by
  constructor
  · intro h
    simp [process_results, filterMap_id_all_none results h]
  · intro hstack b hb
    simp only [process_results] at hb
    rcases hmv : results.filterMap (fun r => r) with _ | ⟨mv, tl⟩
    · rw [hmv] at hb
      simp at hb
      exact hstack b hb
    · rw [hmv] at hb
      have hb2 : b ∈ undoStackAppend stack (mv :: tl) := by simpa using hb
      rcases mem_undoStackAppend hb2 with h1 | h1
      · exact hstack b h1
      · rw [h1]; simp

theorem c10_witness :
    (process_results [none] [[("s", "d")]]).1 = [[("s", "d")]] ∧
    (∀ b ∈ (process_results [none] [[("s", "d")]]).1, b ≠ []) :=
  ⟨(c10_push_only_nonempty [none] [[("s", "d")]]).1 (by decide),
   (c10_push_only_nonempty [none] [[("s", "d")]]).2 (by decide)⟩

end FilesInOrden
